import Mathlib

set_option maxHeartbeats 1000000

namespace TCPIP

/-- Reassembled payload bytes (`std::vector of uint8_t` in tcp_ip.h); bytes are
modelled as natural numbers. -/
abbrev Payload := List Nat

/-- Out-of-order buffer (`std::map` from sequence number to payload chunk in
tcp_ip.h), modelled as an association list kept sorted strictly by key. -/
abbrev Buffer := List (Nat × Payload)

/-- Connection state of one Flow (`enum Flow::State` in tcp_ip.h). -/
inductive FlowState where
  | UNKNOWN
  | SYN_SENT
  | ESTABLISHED
  | FIN_SENT
  | RST_SENT
deriving DecidableEq, Repr

/-- TCP control flags of a captured segment (spec section 6). -/
structure TcpFlags where
  syn : Bool
  ack : Bool
  fin : Bool
  rst : Bool
deriving DecidableEq, Repr

/-- Captured segment abstraction (spec section 6): the externally supplied
structured view of one packet, with 16-byte canonical addresses, ports,
TCP sequence number, control flags, payload bytes, and whether the packet
carried TCP at all. -/
structure Segment where
  tcp : Bool
  v6 : Bool
  src_addr : List Nat
  dst_addr : List Nat
  sport : Nat
  dport : Nat
  seq : Nat
  flags : TcpFlags
  payload : Payload
deriving DecidableEq, Repr

/-- Insert a chunk keyed by its sequence number, keeping the buffer sorted by
key with unique keys (`std::map` insertion; a chunk stored under an existing
key overwrites it, per spec section 4.1 step 3: the chunk is stored keyed by
its sequence number). -/
def bufInsert (k : Nat) (pl : Payload) : Buffer → Buffer
  | [] => [(k, pl)]
  | (k', c) :: t =>
    if k < k' then (k, pl) :: (k', c) :: t
    else if k = k' then (k, pl) :: t
    else (k', c) :: bufInsert k pl t

/-- Modelled from the spec: the drain loop of section 4.1 step 2, enforcing the
section 3 buffer invariant while draining (the implementation file of
tcp_ip.h is not available).  Starting from the smallest buffered key, a chunk
whose key has been reached by the next-expected number is removed: a chunk
that ends at or before the next-expected number is wholly already delivered
and discarded (section 4.1 step 4), otherwise its undelivered suffix is
appended and the next-expected number advances; the loop stops at the first
chunk strictly ahead of the next-expected number.  Fuel is the buffer length:
each round removes one chunk. -/
def drainAux : Nat → Buffer → Nat → Buffer × Nat × Payload
  | 0, buf, exp => (buf, exp, [])
  | _ + 1, [], exp => ([], exp, [])
  | fuel + 1, (k, c) :: t, exp =>
    if k ≤ exp then
      if k + c.length ≤ exp then drainAux fuel t exp
      else
        let add := c.drop (exp - k)
        let r := drainAux fuel t (exp + add.length)
        (r.1, r.2.1, add ++ r.2.2)
    else ((k, c) :: t, exp, [])

/-- Drain every buffered chunk that has become contiguous with the next-expected
sequence number, returning the remaining buffer, the advanced next-expected
number and the bytes appended to the accumulator. -/
def drainBuffer (buf : Buffer) (exp : Nat) : Buffer × Nat × Payload :=
  drainAux buf.length buf exp

/-- Callback invocations observed during one `Flow::process_packet` call.  A
callback is invoked with the Flow itself; the event records the byte range
`[lo, hi)` the invocation reports (newly contiguous bytes for the data
callback, the stored chunk for the buffering callback). -/
inductive FlowEvent where
  | data (lo hi : Nat)
  | buffering (lo hi : Nat)
deriving DecidableEq, Repr

/-- Modelled from the spec: reassembly steps 2-4 of section 4.1 (the
implementation file of tcp_ip.h is not available).  A segment with no payload
carries nothing to reassemble and is ignored.  A segment wholly at or before
the next-expected number is an already-delivered retransmission and is
discarded (step 4).  A segment strictly ahead of the next-expected number is
stored in the out-of-order buffer and the buffering callback fires (step 3).
Otherwise the already-delivered prefix is discarded (step 4), the remaining
suffix is appended, buffered chunks that became contiguous are drained, and
one data callback fires covering the whole newly contiguous range, as in the
section 8 scenario. -/
def reassemble (exp : Nat) (acc : Payload) (buf : Buffer) (seq : Nat) (pl : Payload) :
    Nat × Payload × Buffer × List FlowEvent :=
  if pl = [] then (exp, acc, buf, [])
  else if seq + pl.length ≤ exp then (exp, acc, buf, [])
  else if exp < seq then
    (exp, acc, bufInsert seq pl buf, [FlowEvent.buffering seq (seq + pl.length)])
  else
    let add := pl.drop (exp - seq)
    let r := drainBuffer buf (exp + add.length)
    (r.2.1, acc ++ add ++ r.2.2, r.1, [FlowEvent.data exp r.2.1])

/-- Unidirectional reassembly state machine (`class Flow` in tcp_ip.h); the
private members keep their source names. -/
structure Flow where
  payload_ : Payload
  buffered_payload_ : Buffer
  seq_number_ : Nat
  dest_address_ : List Nat
  dest_port_ : Nat
  is_v6_ : Bool
  state_ : FlowState
deriving DecidableEq, Repr

/-- Flow constructor (tcp_ip.h lines 68-72): known destination address, port and
initial expected sequence number; accumulator and buffer start empty, state
starts UNKNOWN. -/
def Flow.init (addr : List Nat) (port : Nat) (seq : Nat) (v6 : Bool) : Flow :=
  { payload_ := [], buffered_payload_ := [], seq_number_ := seq,
    dest_address_ := addr, dest_port_ := port, is_v6_ := v6,
    state_ := FlowState.UNKNOWN }

/-- Modelled from the spec: `Flow::update_state` (tcp_ip.h line 97, private;
implementation not available), driven by the observed control flags: RST
moves to RST_SENT from any state, FIN to FIN_SENT, SYN with no prior state
moves UNKNOWN to SYN_SENT, and an ACK completing the handshake moves
SYN_SENT to ESTABLISHED. -/
def Flow.update_state (st : FlowState) (fl : TcpFlags) : FlowState :=
  if fl.rst then FlowState.RST_SENT
  else if fl.fin then FlowState.FIN_SENT
  else if fl.syn ∧ st = FlowState.UNKNOWN then FlowState.SYN_SENT
  else if fl.ack ∧ st = FlowState.SYN_SENT then FlowState.ESTABLISHED
  else st

/-- `Flow::is_finished` (spec section 4.1): true iff the state is terminal. -/
def Flow.is_finished (f : Flow) : Bool :=
  f.state_ == FlowState.FIN_SENT || f.state_ == FlowState.RST_SENT

/-- `Flow::packet_belongs` (spec section 4.1): whether a segment's destination
address and port match this Flow's identity. -/
def Flow.packet_belongs (f : Flow) (s : Segment) : Bool :=
  s.dst_addr == f.dest_address_ && s.dport == f.dest_port_

/-- `Flow::process_packet` (tcp_ip.h line 77): update the connection state from
the observed flags and run the reassembly algorithm on the segment's sequence
number and payload, returning the updated Flow and the callback invocations. -/
def Flow.process_packet (f : Flow) (s : Segment) : Flow × List FlowEvent :=
  let st := Flow.update_state f.state_ s.flags
  let r := reassemble f.seq_number_ f.payload_ f.buffered_payload_ s.seq s.payload
  ({ f with
      state_ := st
      seq_number_ := r.1
      payload_ := r.2.1
      buffered_payload_ := r.2.2.1 }, r.2.2.2)

/-- Public state setter `void Flow::state(State)` (tcp_ip.h line 93). -/
def Flow.state (f : Flow) (new_state : FlowState) : Flow :=
  { f with state_ := new_state }

/-- Fold `process_packet` over a list of captured segments, keeping the Flow. -/
def Flow.run (f : Flow) (l : List Segment) : Flow :=
  l.foldl (fun g s => (Flow.process_packet g s).1) f

/-- A pure data segment delivered straight to a Flow: payload and sequence
number only, no control flags (addresses are irrelevant to
`Flow::process_packet`, which is routed to by the owning Stream). -/
def dataSegment (sq : Nat) (pl : Payload) : Segment :=
  { tcp := true, v6 := false, src_addr := [], dst_addr := [], sport := 0, dport := 0,
    seq := sq, flags := ⟨false, false, false, false⟩, payload := pl }

/-- Deliver one data segment, keeping the Flow. -/
def Flow.deliver (f : Flow) (sp : Nat × Payload) : Flow :=
  (Flow.process_packet f (dataSegment sp.1 sp.2)).1

/-- Deliver a list of data segments in order, keeping the Flow. -/
def Flow.runData (f : Flow) (l : List (Nat × Payload)) : Flow :=
  l.foldl Flow.deliver f

/-- Deliver a list of data segments in order, collecting the Flow and the full
trace of callback invocations. -/
def Flow.runTrace (f : Flow) : List (Nat × Payload) → Flow × List FlowEvent
  | [] => (f, [])
  | sp :: t =>
    let r := Flow.process_packet f (dataSegment sp.1 sp.2)
    let rest := Flow.runTrace r.1 t
    (rest.1, r.2 ++ rest.2)

/-- Lexicographic (and therefore numeric, for the canonical 16-byte forms)
comparison of serialized addresses, used to order connection endpoints. -/
def addr_lt : List Nat → List Nat → Bool
  | [], [] => false
  | [], _ :: _ => true
  | _ :: _, [] => false
  | a :: as, b :: bs => if a < b then true else if b < a then false else addr_lt as bs

/-- Modelled from the spec: comparison of (address, port) endpoints (the
implementation of `stream_id` in tcp_ip.h is not available): the address
dominates, the port breaks ties. -/
def endpoint_lt (a1 : List Nat) (p1 : Nat) (a2 : List Nat) (p2 : Nat) : Bool :=
  if addr_lt a1 a2 then true
  else if addr_lt a2 a1 then false
  else decide (p1 < p2)

/-- Direction-independent connection identifier (`StreamFollower::stream_id`,
tcp_ip.h lines 191-203): the smaller (address, port) endpoint goes to the
min slot, the other to the max slot. -/
structure stream_id where
  min_address : List Nat
  max_address : List Nat
  min_address_port : Nat
  max_address_port : Nat
deriving DecidableEq, Repr

/-- Modelled from the spec: `StreamFollower::make_stream_id` (tcp_ip.h line 207;
implementation not available): normalize the two endpoints of a segment by
placing the smaller one in the min slot. -/
def make_stream_id (client_addr : List Nat) (client_port : Nat)
    (server_addr : List Nat) (server_port : Nat) : stream_id :=
  if endpoint_lt server_addr server_port client_addr client_port then
    ⟨server_addr, client_addr, server_port, client_port⟩
  else
    ⟨client_addr, server_addr, client_port, server_port⟩

/-- Composite connection state of a Stream (`enum Stream::State` in tcp_ip.h). -/
inductive StreamState where
  | SYN_SENT
  | SYN_RCVD
  | ESTABLISHED
  | CLOSE_WAIT
  | FIN_WAIT_1
  | FIN_WAIT_2
  | TIME_WAIT
  | CLOSED
deriving DecidableEq, Repr

/-- Numeric rank of a composite state, following the declaration order of
`enum Stream::State`; used to state that the composite state only advances. -/
def StreamState.rank : StreamState → Nat
  | .SYN_SENT => 0
  | .SYN_RCVD => 1
  | .ESTABLISHED => 2
  | .CLOSE_WAIT => 3
  | .FIN_WAIT_1 => 4
  | .FIN_WAIT_2 => 5
  | .TIME_WAIT => 6
  | .CLOSED => 7

/-- Callback invocations observed while a Stream (or the StreamFollower that
owns it) processes a packet: the new-stream callback, the closed callback,
and the four per-direction data/buffering callbacks with the byte range
`[lo, hi)` each invocation reports. -/
inductive StreamEvent where
  | new_stream
  | closed
  | client_data (lo hi : Nat)
  | server_data (lo hi : Nat)
  | client_buffering (lo hi : Nat)
  | server_buffering (lo hi : Nat)
deriving DecidableEq, Repr

/-- Modelled from the spec: the composite state machine of section 4.2
(implementation not available), a standard TCP handshake/teardown diagram
restricted to the listed state names, as section 9 directs, seen from the
client's side and validated against the section 8 scenarios.  RST observed in
either direction short-circuits to CLOSED.  SYN/ACK from the server then ACK
from the client complete the handshake; a first FIN begins the half-close
(FIN_WAIT_1 when the client closes first, CLOSE_WAIT when the server does);
the remaining FIN/ACK exchange moves through FIN_WAIT_2 and TIME_WAIT to
CLOSED, which is absorbing. -/
def Stream.update_state (st : StreamState) (from_client : Bool) (fl : TcpFlags) :
    StreamState :=
  if fl.rst then StreamState.CLOSED
  else match st with
  | .SYN_SENT => if ¬from_client ∧ fl.syn ∧ fl.ack then .SYN_RCVD else st
  | .SYN_RCVD => if from_client ∧ fl.ack then .ESTABLISHED else st
  | .ESTABLISHED =>
    if fl.fin then (if from_client then .FIN_WAIT_1 else .CLOSE_WAIT) else st
  | .FIN_WAIT_1 => if fl.fin then .TIME_WAIT else if fl.ack then .FIN_WAIT_2 else st
  | .FIN_WAIT_2 => if fl.fin then .TIME_WAIT else st
  | .CLOSE_WAIT => if from_client ∧ fl.fin then .TIME_WAIT else st
  | .TIME_WAIT => if fl.ack then .CLOSED else st
  | .CLOSED => .CLOSED

/-- A bidirectional connection (`class Stream` in tcp_ip.h): exactly two Flows
and the composite state. -/
structure Stream where
  client_flow_ : Flow
  server_flow_ : Flow
  state_ : StreamState
deriving DecidableEq, Repr

/-- Modelled from the spec: `Stream::extract_client_flow` (tcp_ip.h line 158;
implementation not available).  The client Flow reassembles client-to-server
data, so its identity is the first segment's destination endpoint and its
initial expected sequence number is the segment's sequence number, advanced
past the SYN when the segment carries one (a SYN occupies one sequence
position, so in-order data begins right after it). -/
def Stream.extract_client_flow (s : Segment) : Flow :=
  Flow.init s.dst_addr s.dport (s.seq + (if s.flags.syn then 1 else 0)) s.v6

/-- Modelled from the spec: `Stream::extract_server_flow` (tcp_ip.h line 159;
implementation not available).  The server Flow reassembles server-to-client
data, so its identity is the first segment's source endpoint; its expected
sequence number is learned from the server's first reply (spec section 4.2)
and starts at 0. -/
def Stream.extract_server_flow (s : Segment) : Flow :=
  Flow.init s.src_addr s.sport 0 s.v6

/-- The `Stream(const PDU&)` constructor (tcp_ip.h line 126): both Flows are
derived from the connection's first observed segment and the composite state
starts at SYN_SENT. -/
def Stream.init (s : Segment) : Stream :=
  { client_flow_ := Stream.extract_client_flow s,
    server_flow_ := Stream.extract_server_flow s,
    state_ := StreamState.SYN_SENT }

/-- Modelled from the spec: the expected sequence number of a Flow that has not
yet seen any segment is learned from the first SYN-carrying segment routed to
it (spec section 4.2: learned from the server's first reply), advancing past
the SYN. -/
def Stream.learn (f : Flow) (s : Segment) : Flow :=
  if s.flags.syn ∧ f.state_ = FlowState.UNKNOWN then
    { f with seq_number_ := s.seq + 1 }
  else f

/-- Lift the data/buffering callback invocations of the client Flow to the
Stream's per-direction callbacks (spec section 4.2, `setup_flows_callbacks`). -/
def clientEvent : FlowEvent → StreamEvent
  | FlowEvent.data lo hi => StreamEvent.client_data lo hi
  | FlowEvent.buffering lo hi => StreamEvent.client_buffering lo hi

/-- Lift the data/buffering callback invocations of the server Flow to the
Stream's per-direction callbacks (spec section 4.2, `setup_flows_callbacks`). -/
def serverEvent : FlowEvent → StreamEvent
  | FlowEvent.data lo hi => StreamEvent.server_data lo hi
  | FlowEvent.buffering lo hi => StreamEvent.server_buffering lo hi

/-- Modelled from the spec: `Stream::process_packet` (tcp_ip.h line 129;
implementation not available).  The segment is routed by `packet_belongs` to
the Flow whose identity its destination matches (client Flow first); a
segment matching neither Flow is ignored.  The composite state is updated
from the travel direction and flags; the closed callback fires exactly when
the composite state transitions into CLOSED. -/
def Stream.process_packet (st : Stream) (s : Segment) : Stream × List StreamEvent :=
  if st.client_flow_.packet_belongs s then
    let r := (Stream.learn st.client_flow_ s).process_packet s
    let ns := Stream.update_state st.state_ true s.flags
    ({ client_flow_ := r.1, server_flow_ := st.server_flow_, state_ := ns },
      r.2.map clientEvent ++
        (if ns = StreamState.CLOSED ∧ st.state_ ≠ StreamState.CLOSED then
          [StreamEvent.closed] else []))
  else if st.server_flow_.packet_belongs s then
    let r := (Stream.learn st.server_flow_ s).process_packet s
    let ns := Stream.update_state st.state_ false s.flags
    ({ client_flow_ := st.client_flow_, server_flow_ := r.1, state_ := ns },
      r.2.map serverEvent ++
        (if ns = StreamState.CLOSED ∧ st.state_ ≠ StreamState.CLOSED then
          [StreamEvent.closed] else []))
  else (st, [])

/-- `Stream::is_finished` (spec section 4.2): true iff the composite state is
CLOSED (an RST observed on either Flow already forces CLOSED). -/
def Stream.is_finished (s : Stream) : Bool :=
  s.state_ == StreamState.CLOSED

/-- Process a list of segments in order, collecting the Stream and the full
trace of callback invocations. -/
def Stream.runTrace (st : Stream) : List Segment → Stream × List StreamEvent
  | [] => (st, [])
  | s :: t =>
    let r := Stream.process_packet st s
    let rest := Stream.runTrace r.1 t
    (rest.1, r.2 ++ rest.2)

/-- Lookup in the follower's table of live Streams. -/
def lookupId : List (stream_id × Stream) → stream_id → Option Stream
  | [], _ => none
  | (k', v) :: t, k => if k' = k then some v else lookupId t k

/-- Remove a connection identifier from the follower's table. -/
def eraseId (l : List (stream_id × Stream)) (k : stream_id) : List (stream_id × Stream) :=
  l.filter (fun p => decide (p.1 ≠ k))

/-- Insert (or overwrite) a Stream under its connection identifier. -/
def insertId (l : List (stream_id × Stream)) (k : stream_id) (v : Stream) :
    List (stream_id × Stream) :=
  (k, v) :: eraseId l k

/-- Top-level demultiplexer (`class StreamFollower` in tcp_ip.h): the table of
live Streams keyed by normalized connection identifier and the
maximum-buffered-chunks cap propagated to created Flows (the cap's overflow
policy is an open choice, spec section 7, and is not modelled). -/
structure StreamFollower where
  streams_ : List (stream_id × Stream)
  max_buffered_chunks_ : Nat
deriving DecidableEq, Repr

/-- The `StreamFollower()` constructor (tcp_ip.h line 180): empty table. -/
def StreamFollower.init : StreamFollower :=
  { streams_ := [], max_buffered_chunks_ := 4 }

/-- Modelled from the spec: `StreamFollower::process_packet` (tcp_ip.h line 182;
implementation not available).  Non-TCP packets are ignored and reported as
unhandled.  Otherwise the normalized identifier is computed; a missing Stream
is created from the segment (firing the new-stream callback) and the segment
is delivered to the Stream; after delivery the Stream is kept in the table
exactly when it does not report finished. -/
def StreamFollower.process_packet (sf : StreamFollower) (s : Segment) :
    StreamFollower × Bool × List StreamEvent :=
  if ¬s.tcp then (sf, false, [])
  else
    let cid := make_stream_id s.src_addr s.sport s.dst_addr s.dport
    match lookupId sf.streams_ cid with
    | none =>
      let r := (Stream.init s).process_packet s
      ({ sf with
          streams_ := if r.1.is_finished then eraseId sf.streams_ cid
                      else insertId sf.streams_ cid r.1 },
        true, StreamEvent.new_stream :: r.2)
    | some st =>
      let r := st.process_packet s
      ({ sf with
          streams_ := if r.1.is_finished then eraseId sf.streams_ cid
                      else insertId sf.streams_ cid r.1 },
        true, r.2)

/-- The out-of-order buffer is an association list strictly sorted by key. -/
abbrev BufSorted (l : Buffer) : Prop :=
  l.Pairwise (fun a b => a.1 < b.1)

theorem reassemble_empty (e : Nat) (a : Payload) (B : Buffer) (k : Nat) (pl : Payload)
    (h : pl = []) : reassemble e a B k pl = (e, a, B, []) := by
  simp [reassemble, h]

theorem reassemble_old (e : Nat) (a : Payload) (B : Buffer) (k : Nat) (pl : Payload)
    (h : pl ≠ []) (h2 : k + pl.length ≤ e) : reassemble e a B k pl = (e, a, B, []) := by
  simp [reassemble, h, h2]

theorem reassemble_gap (e : Nat) (a : Payload) (B : Buffer) (k : Nat) (pl : Payload)
    (h : pl ≠ []) (h2 : ¬(k + pl.length ≤ e)) (h3 : e < k) :
    reassemble e a B k pl =
      (e, a, bufInsert k pl B, [FlowEvent.buffering k (k + pl.length)]) := by
  simp [reassemble, h, h2, h3]

theorem reassemble_app (e : Nat) (a : Payload) (B : Buffer) (k : Nat) (pl : Payload)
    (h : pl ≠ []) (h2 : ¬(k + pl.length ≤ e)) (h3 : ¬(e < k)) :
    reassemble e a B k pl =
      ((drainBuffer B (e + (pl.drop (e - k)).length)).2.1,
       a ++ pl.drop (e - k) ++ (drainBuffer B (e + (pl.drop (e - k)).length)).2.2,
       (drainBuffer B (e + (pl.drop (e - k)).length)).1,
       [FlowEvent.data e (drainBuffer B (e + (pl.drop (e - k)).length)).2.1]) := by
  simp [reassemble, h, h2, h3]

theorem bufInsert_high (k : Nat) (pl : Payload) (l : Buffer) (hd : Nat × Payload)
    (h : hd.1 < k) : bufInsert k pl (hd :: l) = hd :: bufInsert k pl l := by
  obtain ⟨k', c⟩ := hd
  simp only at h
  have h1 : ¬k < k' := by omega
  have h2 : ¬k = k' := by omega
  simp [bufInsert, h1, h2]

theorem bufInsert_low (k : Nat) (pl : Payload) (l : Buffer) (hd : Nat × Payload)
    (h : k < hd.1) : bufInsert k pl (hd :: l) = (k, pl) :: hd :: l := by
  obtain ⟨k', c⟩ := hd
  simp only at h
  simp [bufInsert, h]

theorem bufInsert_replace (k : Nat) (pl c : Payload) (l : Buffer) :
    bufInsert k pl ((k, c) :: l) = (k, pl) :: l := by
  simp [bufInsert]

theorem mem_bufInsert (k : Nat) (pl : Payload) (l : Buffer) :
    ∀ x ∈ bufInsert k pl l, x ∈ l ∨ x = (k, pl) := by
  induction l with
  | nil =>
    intro x hx
    rcases List.mem_cons.mp hx with hx | hx
    · right; exact hx
    · exact absurd hx (List.not_mem_nil x)
  | cons hd t ih =>
    intro x hx
    by_cases h1 : k < hd.1
    · rw [bufInsert_low k pl t hd h1] at hx
      rcases List.mem_cons.mp hx with hx | hx
      · right; exact hx
      · left; exact hx
    · by_cases h2 : k = hd.1
      · have hrepl : bufInsert k pl (hd :: t) = (k, pl) :: t := by
          obtain ⟨k', c⟩ := hd
          simp only at h2
          subst h2
          exact bufInsert_replace k pl c t
        rw [hrepl] at hx
        rcases List.mem_cons.mp hx with hx | hx
        · right; exact hx
        · left; exact List.mem_cons_of_mem hd hx
      · have h3 : hd.1 < k := by omega
        rw [bufInsert_high k pl t hd h3] at hx
        rcases List.mem_cons.mp hx with hx | hx
        · left; rw [hx]; exact List.mem_cons_self hd t
        · rcases ih x hx with hh | hh
          · left; exact List.mem_cons_of_mem hd hh
          · right; exact hh

theorem bufInsert_sorted (k : Nat) (pl : Payload) (l : Buffer) (h : BufSorted l) :
    BufSorted (bufInsert k pl l) := by
  induction l with
  | nil => simp [bufInsert]
  | cons hd t ih =>
    rcases List.pairwise_cons.mp h with ⟨hhd, ht⟩
    by_cases h1 : k < hd.1
    · rw [bufInsert_low k pl t hd h1]
      refine List.Pairwise.cons ?_ (List.Pairwise.cons hhd ht)
      intro b hb
      rcases List.mem_cons.mp hb with hb | hb
      · simp [hb, h1]
      · exact lt_trans h1 (hhd b hb)
    · by_cases h2 : k = hd.1
      · have hrepl : bufInsert k pl (hd :: t) = (k, pl) :: t := by
          obtain ⟨k', c⟩ := hd
          simp only at h2
          subst h2
          exact bufInsert_replace k pl c t
        rw [hrepl]
        refine List.Pairwise.cons ?_ ht
        intro b hb
        rw [h2]
        exact hhd b hb
      · have h3 : hd.1 < k := by omega
        rw [bufInsert_high k pl t hd h3]
        refine List.Pairwise.cons ?_ (ih ht)
        intro b hb
        rcases mem_bufInsert k pl t b hb with hh | hh
        · exact hhd b hh
        · rw [hh]; omega

theorem bufInsert_comm (k1 k2 : Nat) (p1 p2 : Payload) (l : Buffer) (h : k1 ≠ k2) :
    bufInsert k1 p1 (bufInsert k2 p2 l) = bufInsert k2 p2 (bufInsert k1 p1 l) := by
  induction l with
  | nil =>
    rcases Nat.lt_or_ge k1 k2 with hlt | hge
    · have L : bufInsert k1 p1 (bufInsert k2 p2 []) = (k1, p1) :: (k2, p2) :: [] := by
        rw [show bufInsert k2 p2 ([] : Buffer) = [(k2, p2)] from rfl,
          bufInsert_low k1 p1 [] (k2, p2) hlt]
      have R : bufInsert k2 p2 (bufInsert k1 p1 []) = (k1, p1) :: (k2, p2) :: [] := by
        rw [show bufInsert k1 p1 ([] : Buffer) = [(k1, p1)] from rfl,
          bufInsert_high k2 p2 [] (k1, p1) hlt]
        rfl
      rw [L, R]
    · have hlt : k2 < k1 := by omega
      have L : bufInsert k1 p1 (bufInsert k2 p2 []) = (k2, p2) :: (k1, p1) :: [] := by
        rw [show bufInsert k2 p2 ([] : Buffer) = [(k2, p2)] from rfl,
          bufInsert_high k1 p1 [] (k2, p2) hlt]
        rfl
      have R : bufInsert k2 p2 (bufInsert k1 p1 []) = (k2, p2) :: (k1, p1) :: [] := by
        rw [show bufInsert k1 p1 ([] : Buffer) = [(k1, p1)] from rfl,
          bufInsert_low k2 p2 [] (k1, p1) hlt]
      rw [L, R]
  | cons hd t ih =>
    obtain ⟨k, c⟩ := hd
    rcases Nat.lt_trichotomy k1 k with h1lt | h1eq | h1gt
    · rcases Nat.lt_trichotomy k2 k with h2lt | h2eq | h2gt
      · rcases Nat.lt_or_ge k1 k2 with hlt | hge
        · have L : bufInsert k1 p1 (bufInsert k2 p2 ((k, c) :: t)) =
              (k1, p1) :: (k2, p2) :: (k, c) :: t := by
            rw [bufInsert_low k2 p2 t (k, c) h2lt,
              bufInsert_low k1 p1 ((k, c) :: t) (k2, p2) hlt]
          have R : bufInsert k2 p2 (bufInsert k1 p1 ((k, c) :: t)) =
              (k1, p1) :: (k2, p2) :: (k, c) :: t := by
            rw [bufInsert_low k1 p1 t (k, c) h1lt,
              bufInsert_high k2 p2 ((k, c) :: t) (k1, p1) hlt,
              bufInsert_low k2 p2 t (k, c) h2lt]
          rw [L, R]
        · have hlt : k2 < k1 := by omega
          have L : bufInsert k1 p1 (bufInsert k2 p2 ((k, c) :: t)) =
              (k2, p2) :: (k1, p1) :: (k, c) :: t := by
            rw [bufInsert_low k2 p2 t (k, c) h2lt,
              bufInsert_high k1 p1 ((k, c) :: t) (k2, p2) hlt,
              bufInsert_low k1 p1 t (k, c) h1lt]
          have R : bufInsert k2 p2 (bufInsert k1 p1 ((k, c) :: t)) =
              (k2, p2) :: (k1, p1) :: (k, c) :: t := by
            rw [bufInsert_low k1 p1 t (k, c) h1lt,
              bufInsert_low k2 p2 ((k, c) :: t) (k1, p1) hlt]
          rw [L, R]
      · subst h2eq
        have L : bufInsert k1 p1 (bufInsert k2 p2 ((k2, c) :: t)) =
            (k1, p1) :: (k2, p2) :: t := by
          rw [bufInsert_replace k2 p2 c t, bufInsert_low k1 p1 t (k2, p2) h1lt]
        have R : bufInsert k2 p2 (bufInsert k1 p1 ((k2, c) :: t)) =
            (k1, p1) :: (k2, p2) :: t := by
          rw [bufInsert_low k1 p1 t (k2, c) h1lt,
            bufInsert_high k2 p2 ((k2, c) :: t) (k1, p1) h1lt,
            bufInsert_replace k2 p2 c t]
        rw [L, R]
      · have L : bufInsert k1 p1 (bufInsert k2 p2 ((k, c) :: t)) =
            (k1, p1) :: (k, c) :: bufInsert k2 p2 t := by
          rw [bufInsert_high k2 p2 t (k, c) h2gt,
            bufInsert_low k1 p1 (bufInsert k2 p2 t) (k, c) h1lt]
        have R : bufInsert k2 p2 (bufInsert k1 p1 ((k, c) :: t)) =
            (k1, p1) :: (k, c) :: bufInsert k2 p2 t := by
          rw [bufInsert_low k1 p1 t (k, c) h1lt,
            bufInsert_high k2 p2 ((k, c) :: t) (k1, p1) (by omega),
            bufInsert_high k2 p2 t (k, c) h2gt]
        rw [L, R]
    · subst h1eq
      rcases Nat.lt_trichotomy k2 k1 with h2lt | h2eq | h2gt
      · have L : bufInsert k1 p1 (bufInsert k2 p2 ((k1, c) :: t)) =
            (k2, p2) :: (k1, p1) :: t := by
          rw [bufInsert_low k2 p2 t (k1, c) h2lt,
            bufInsert_high k1 p1 ((k1, c) :: t) (k2, p2) h2lt,
            bufInsert_replace k1 p1 c t]
        have R : bufInsert k2 p2 (bufInsert k1 p1 ((k1, c) :: t)) =
            (k2, p2) :: (k1, p1) :: t := by
          rw [bufInsert_replace k1 p1 c t,
            bufInsert_low k2 p2 t (k1, p1) h2lt]
        rw [L, R]
      · omega
      · have L : bufInsert k1 p1 (bufInsert k2 p2 ((k1, c) :: t)) =
            (k1, p1) :: bufInsert k2 p2 t := by
          rw [bufInsert_high k2 p2 t (k1, c) h2gt,
            bufInsert_replace k1 p1 c (bufInsert k2 p2 t)]
        have R : bufInsert k2 p2 (bufInsert k1 p1 ((k1, c) :: t)) =
            (k1, p1) :: bufInsert k2 p2 t := by
          rw [bufInsert_replace k1 p1 c t,
            bufInsert_high k2 p2 t (k1, p1) h2gt]
        rw [L, R]
    · rcases Nat.lt_trichotomy k2 k with h2lt | h2eq | h2gt
      · have L : bufInsert k1 p1 (bufInsert k2 p2 ((k, c) :: t)) =
            (k2, p2) :: (k, c) :: bufInsert k1 p1 t := by
          rw [bufInsert_low k2 p2 t (k, c) h2lt,
            bufInsert_high k1 p1 ((k, c) :: t) (k2, p2) (by omega),
            bufInsert_high k1 p1 t (k, c) h1gt]
        have R : bufInsert k2 p2 (bufInsert k1 p1 ((k, c) :: t)) =
            (k2, p2) :: (k, c) :: bufInsert k1 p1 t := by
          rw [bufInsert_high k1 p1 t (k, c) h1gt,
            bufInsert_low k2 p2 (bufInsert k1 p1 t) (k, c) h2lt]
        rw [L, R]
      · subst h2eq
        have L : bufInsert k1 p1 (bufInsert k2 p2 ((k2, c) :: t)) =
            (k2, p2) :: bufInsert k1 p1 t := by
          rw [bufInsert_replace k2 p2 c t,
            bufInsert_high k1 p1 t (k2, p2) h1gt]
        have R : bufInsert k2 p2 (bufInsert k1 p1 ((k2, c) :: t)) =
            (k2, p2) :: bufInsert k1 p1 t := by
          rw [bufInsert_high k1 p1 t (k2, c) h1gt,
            bufInsert_replace k2 p2 c (bufInsert k1 p1 t)]
        rw [L, R]
      · have L : bufInsert k1 p1 (bufInsert k2 p2 ((k, c) :: t)) =
            (k, c) :: bufInsert k1 p1 (bufInsert k2 p2 t) := by
          rw [bufInsert_high k2 p2 t (k, c) h2gt,
            bufInsert_high k1 p1 (bufInsert k2 p2 t) (k, c) h1gt]
        have R : bufInsert k2 p2 (bufInsert k1 p1 ((k, c) :: t)) =
            (k, c) :: bufInsert k2 p2 (bufInsert k1 p1 t) := by
          rw [bufInsert_high k1 p1 t (k, c) h1gt,
            bufInsert_high k2 p2 (bufInsert k1 p1 t) (k, c) h2gt]
        rw [L, R, ih]

theorem drainAux_nil (fuel : Nat) (e : Nat) : drainAux fuel [] e = ([], e, []) := by
  cases fuel <;> rfl

theorem drainAux_fuel : ∀ (f1 : Nat) (buf : Buffer) (f2 e : Nat),
    buf.length ≤ f1 → buf.length ≤ f2 → drainAux f1 buf e = drainAux f2 buf e := by
  intro f1
  induction f1 with
  | zero =>
    intro buf f2 e h1 h2
    have hb : buf = [] := List.length_eq_zero.mp (Nat.le_zero.mp h1)
    subst hb
    rw [drainAux_nil, drainAux_nil]
  | succ n ih =>
    intro buf f2 e h1 h2
    cases buf with
    | nil => rw [drainAux_nil, drainAux_nil]
    | cons hd t =>
      obtain ⟨k, c⟩ := hd
      cases f2 with
      | zero => simp at h2
      | succ m =>
        have ht1 : t.length ≤ n := by simp at h1; omega
        have ht2 : t.length ≤ m := by simp at h2; omega
        simp only [drainAux]
        by_cases hk : k ≤ e
        · by_cases hde : k + c.length ≤ e
          · simp only [if_pos hk, if_pos hde]
            exact ih t m e ht1 ht2
          · simp only [if_pos hk, if_neg hde]
            rw [ih t m (e + (c.drop (e - k)).length) ht1 ht2]
        · simp only [if_neg hk]

theorem drainBuffer_nil (e : Nat) : drainBuffer [] e = ([], e, []) := rfl

theorem drainBuffer_stop (k : Nat) (c : Payload) (t : Buffer) (e : Nat) (h : e < k) :
    drainBuffer ((k, c) :: t) e = ((k, c) :: t, e, []) := by
  simp only [drainBuffer, List.length_cons, drainAux, if_neg (by omega : ¬k ≤ e)]

theorem drainBuffer_discard (k : Nat) (c : Payload) (t : Buffer) (e : Nat)
    (h1 : k ≤ e) (h2 : k + c.length ≤ e) :
    drainBuffer ((k, c) :: t) e = drainBuffer t e := by
  simp only [drainBuffer, List.length_cons, drainAux, if_pos h1, if_pos h2]

theorem drainBuffer_take (k : Nat) (c : Payload) (t : Buffer) (e : Nat)
    (h1 : k ≤ e) (h2 : ¬(k + c.length ≤ e)) :
    drainBuffer ((k, c) :: t) e =
      ((drainBuffer t (e + (c.drop (e - k)).length)).1,
       (drainBuffer t (e + (c.drop (e - k)).length)).2.1,
       c.drop (e - k) ++ (drainBuffer t (e + (c.drop (e - k)).length)).2.2) := by
  simp only [drainBuffer, List.length_cons, drainAux, if_pos h1, if_neg h2]

theorem drainBuffer_mono (buf : Buffer) : ∀ (e : Nat), e ≤ (drainBuffer buf e).2.1 := by
  induction buf with
  | nil => intro e; rw [drainBuffer_nil]
  | cons hd t ih =>
    intro e
    obtain ⟨k, c⟩ := hd
    by_cases hk : k ≤ e
    · by_cases hde : k + c.length ≤ e
      · rw [drainBuffer_discard k c t e hk hde]
        exact ih e
      · rw [drainBuffer_take k c t e hk hde]
        have := ih (e + (c.drop (e - k)).length)
        simp only
        omega
    · rw [drainBuffer_stop k c t e (by omega)]

theorem drainBuffer_sub (buf : Buffer) :
    ∀ (e : Nat), ∀ x ∈ (drainBuffer buf e).1, x ∈ buf := by
  induction buf with
  | nil => intro e x hx; rw [drainBuffer_nil] at hx; exact absurd hx (List.not_mem_nil x)
  | cons hd t ih =>
    intro e x hx
    obtain ⟨k, c⟩ := hd
    by_cases hk : k ≤ e
    · by_cases hde : k + c.length ≤ e
      · rw [drainBuffer_discard k c t e hk hde] at hx
        exact List.mem_cons_of_mem _ (ih e x hx)
      · rw [drainBuffer_take k c t e hk hde] at hx
        exact List.mem_cons_of_mem _ (ih (e + (c.drop (e - k)).length) x hx)
    · rw [drainBuffer_stop k c t e (by omega)] at hx
      exact hx

theorem drainBuffer_sorted (buf : Buffer) :
    ∀ (e : Nat), BufSorted buf → BufSorted (drainBuffer buf e).1 := by
  induction buf with
  | nil => intro e _; rw [drainBuffer_nil]; exact List.Pairwise.nil
  | cons hd t ih =>
    intro e hs
    obtain ⟨k, c⟩ := hd
    rcases List.pairwise_cons.mp hs with ⟨hhd, ht⟩
    by_cases hk : k ≤ e
    · by_cases hde : k + c.length ≤ e
      · rw [drainBuffer_discard k c t e hk hde]
        exact ih e ht
      · rw [drainBuffer_take k c t e hk hde]
        exact ih (e + (c.drop (e - k)).length) ht
    · rw [drainBuffer_stop k c t e (by omega)]
      exact hs

theorem drainBuffer_keys (buf : Buffer) :
    ∀ (e : Nat), BufSorted buf →
      ∀ x ∈ (drainBuffer buf e).1, (drainBuffer buf e).2.1 < x.1 := by
  induction buf with
  | nil => intro e _ x hx; rw [drainBuffer_nil] at hx; exact absurd hx (List.not_mem_nil x)
  | cons hd t ih =>
    intro e hs x hx
    obtain ⟨k, c⟩ := hd
    rcases List.pairwise_cons.mp hs with ⟨hhd, ht⟩
    by_cases hk : k ≤ e
    · by_cases hde : k + c.length ≤ e
      · rw [drainBuffer_discard k c t e hk hde] at hx ⊢
        exact ih e ht x hx
      · rw [drainBuffer_take k c t e hk hde] at hx ⊢
        exact ih (e + (c.drop (e - k)).length) ht x hx
    · rw [drainBuffer_stop k c t e (by omega)] at hx ⊢
      rcases List.mem_cons.mp hx with hx | hx
      · rw [hx]
        show e < k
        omega
      · have hkx := hhd x hx
        show e < x.1
        omega

theorem drainBuffer_exp_bytes (buf : Buffer) :
    ∀ (e : Nat), (drainBuffer buf e).2.1 = e + (drainBuffer buf e).2.2.length := by
  induction buf with
  | nil => intro e; rw [drainBuffer_nil]; rfl
  | cons hd t ih =>
    intro e
    obtain ⟨k, c⟩ := hd
    by_cases hk : k ≤ e
    · by_cases hde : k + c.length ≤ e
      · rw [drainBuffer_discard k c t e hk hde]
        exact ih e
      · rw [drainBuffer_take k c t e hk hde]
        have := ih (e + (c.drop (e - k)).length)
        simp only [List.length_append]
        omega
    · rw [drainBuffer_stop k c t e (by omega)]
      rfl

theorem drainBuffer_le_of_apart (buf : Buffer) :
    ∀ (e sy ln : Nat), 0 < ln → e ≤ sy →
      (∀ x ∈ buf, x.1 + x.2.length ≤ sy ∨ sy + ln ≤ x.1) →
      (drainBuffer buf e).2.1 ≤ sy := by
  induction buf with
  | nil => intro e sy ln _ hes _; rw [drainBuffer_nil]; exact hes
  | cons hd t ih =>
    intro e sy ln hln hes hap
    obtain ⟨k, c⟩ := hd
    by_cases hk : k ≤ e
    · by_cases hde : k + c.length ≤ e
      · rw [drainBuffer_discard k c t e hk hde]
        exact ih e sy ln hln hes (fun x hx => hap x (List.mem_cons_of_mem _ hx))
      · rw [drainBuffer_take k c t e hk hde]
        rcases hap (k, c) (List.mem_cons_self _ _) with hcase | hcase
        · simp only
          refine ih (e + (c.drop (e - k)).length) sy ln hln ?_
            (fun x hx => hap x (List.mem_cons_of_mem _ hx))
          have hdl : (c.drop (e - k)).length = c.length - (e - k) := List.length_drop _ _
          simp only at hcase
          omega
        · simp only at hcase
          omega
    · rw [drainBuffer_stop k c t e (by omega)]
      exact hes

theorem drainBuffer_insert_high (buf : Buffer) :
    ∀ (e sy : Nat) (py : Payload),
      (∀ x ∈ buf, x.1 ≠ sy) → (drainBuffer buf e).2.1 < sy →
      drainBuffer (bufInsert sy py buf) e =
        (bufInsert sy py (drainBuffer buf e).1,
         (drainBuffer buf e).2.1, (drainBuffer buf e).2.2) := by
  induction buf with
  | nil =>
    intro e sy py _ hgt
    rw [drainBuffer_nil] at hgt
    have hgt' : e < sy := hgt
    rw [drainBuffer_nil, show bufInsert sy py [] = [(sy, py)] from rfl,
      drainBuffer_stop sy py [] e hgt']
  | cons hd t ih =>
    intro e sy py hne hgt
    obtain ⟨k, c⟩ := hd
    have hkne : k ≠ sy := hne (k, c) (List.mem_cons_self _ _)
    have hmono := drainBuffer_mono ((k, c) :: t) e
    rcases Nat.lt_or_ge sy k with hsk | hsk
    · have hke : e < k := by
        by_contra hcon
        push_neg at hcon
        omega
      have hstop := drainBuffer_stop k c t e hke
      rw [hstop] at hgt ⊢
      have hgt' : e < sy := hgt
      show drainBuffer (bufInsert sy py ((k, c) :: t)) e =
        (bufInsert sy py ((k, c) :: t), e, [])
      rw [bufInsert_low sy py t (k, c) hsk]
      exact drainBuffer_stop sy py ((k, c) :: t) e hgt'
    · have hks : k < sy := by omega
      rw [bufInsert_high sy py t (k, c) hks]
      have hnet : ∀ x ∈ t, x.1 ≠ sy := fun x hx => hne x (List.mem_cons_of_mem _ hx)
      by_cases hk : k ≤ e
      · by_cases hde : k + c.length ≤ e
        · rw [drainBuffer_discard k c t e hk hde] at hgt ⊢
          rw [drainBuffer_discard k c (bufInsert sy py t) e hk hde]
          exact ih e sy py hnet hgt
        · rw [drainBuffer_take k c t e hk hde] at hgt ⊢
          have hgt2 : (drainBuffer t (e + (c.drop (e - k)).length)).2.1 < sy := hgt
          rw [drainBuffer_take k c (bufInsert sy py t) e hk hde,
            ih (e + (c.drop (e - k)).length) sy py hnet hgt2]
      · have hke : e < k := by omega
        have hstop := drainBuffer_stop k c t e hke
        rw [hstop] at hgt ⊢
        have hgt' : e < sy := hgt
        show drainBuffer ((k, c) :: bufInsert sy py t) e =
          (bufInsert sy py ((k, c) :: t), e, [])
        rw [drainBuffer_stop k c (bufInsert sy py t) e hke,
          bufInsert_high sy py t (k, c) hks]

theorem drainBuffer_insert_hit (buf : Buffer) :
    ∀ (e sy : Nat) (py : Payload), py ≠ [] →
      (∀ x ∈ buf, x.1 ≠ sy) → (drainBuffer buf e).2.1 = sy →
      drainBuffer (bufInsert sy py buf) e =
        ((drainBuffer (drainBuffer buf e).1 (sy + py.length)).1,
         (drainBuffer (drainBuffer buf e).1 (sy + py.length)).2.1,
         (drainBuffer buf e).2.2 ++ py ++
           (drainBuffer (drainBuffer buf e).1 (sy + py.length)).2.2) := by
  induction buf with
  | nil =>
    intro e sy py hpy _ hhit
    rw [drainBuffer_nil] at hhit
    have hhit' : e = sy := hhit
    subst hhit'
    have hlen : 0 < py.length := List.length_pos.mpr hpy
    rw [drainBuffer_nil]
    show drainBuffer (bufInsert e py []) e =
      ((drainBuffer [] (e + py.length)).1, (drainBuffer [] (e + py.length)).2.1,
       py ++ (drainBuffer [] (e + py.length)).2.2)
    rw [show bufInsert e py [] = [(e, py)] from rfl,
      drainBuffer_take e py [] e le_rfl (by omega)]
    simp [Nat.sub_self]
  | cons hd t ih =>
    intro e sy py hpy hne hhit
    obtain ⟨k, c⟩ := hd
    have hkne : k ≠ sy := hne (k, c) (List.mem_cons_self _ _)
    have hmono := drainBuffer_mono ((k, c) :: t) e
    have hlen : 0 < py.length := List.length_pos.mpr hpy
    have hnet : ∀ x ∈ t, x.1 ≠ sy := fun x hx => hne x (List.mem_cons_of_mem _ hx)
    rcases Nat.lt_or_ge sy k with hsk | hsk
    · have hke : e < k := by
        by_contra hcon
        push_neg at hcon
        omega
      have hstop := drainBuffer_stop k c t e hke
      rw [hstop] at hhit ⊢
      have hhit' : e = sy := hhit
      subst hhit'
      show drainBuffer (bufInsert e py ((k, c) :: t)) e =
        ((drainBuffer ((k, c) :: t) (e + py.length)).1,
         (drainBuffer ((k, c) :: t) (e + py.length)).2.1,
         py ++ (drainBuffer ((k, c) :: t) (e + py.length)).2.2)
      rw [bufInsert_low e py t (k, c) hsk,
        drainBuffer_take e py ((k, c) :: t) e le_rfl (by omega)]
      simp [Nat.sub_self]
    · have hks : k < sy := by omega
      rw [bufInsert_high sy py t (k, c) hks]
      by_cases hk : k ≤ e
      · by_cases hde : k + c.length ≤ e
        · rw [drainBuffer_discard k c t e hk hde] at hhit ⊢
          rw [drainBuffer_discard k c (bufInsert sy py t) e hk hde]
          exact ih e sy py hpy hnet hhit
        · rw [drainBuffer_take k c t e hk hde] at hhit ⊢
          have hhit2 : (drainBuffer t (e + (c.drop (e - k)).length)).2.1 = sy := hhit
          rw [drainBuffer_take k c (bufInsert sy py t) e hk hde,
            ih (e + (c.drop (e - k)).length) sy py hpy hnet hhit2]
          simp [List.append_assoc]
      · have hke : e < k := by omega
        rw [drainBuffer_stop k c t e hke] at hhit
        have hhit' : e = sy := hhit
        omega

/-- Reassembly core state of a Flow: next-expected sequence number, in-order
accumulator, out-of-order buffer. -/
abbrev RState := Nat × Payload × Buffer

/-- The reassembly core state of a Flow. -/
def Flow.rs (f : Flow) : RState :=
  (f.seq_number_, f.payload_, f.buffered_payload_)

/-- One reassembly step on the core state: the effect of
`Flow::process_packet` on the reassembly fields for a pure data segment. -/
def rstep (t : RState) (sp : Nat × Payload) : RState :=
  ((reassemble t.1 t.2.1 t.2.2 sp.1 sp.2).1,
   (reassemble t.1 t.2.1 t.2.2 sp.1 sp.2).2.1,
   (reassemble t.1 t.2.1 t.2.2 sp.1 sp.2).2.2.1)

theorem rstep_empty (e : Nat) (a : Payload) (B : Buffer) (k : Nat) (p : Payload)
    (h : p = []) : rstep (e, a, B) (k, p) = (e, a, B) := by
  simp [rstep, reassemble_empty e a B k p h]

theorem rstep_old (e : Nat) (a : Payload) (B : Buffer) (k : Nat) (p : Payload)
    (h : p ≠ []) (h2 : k + p.length ≤ e) : rstep (e, a, B) (k, p) = (e, a, B) := by
  simp [rstep, reassemble_old e a B k p h h2]

theorem rstep_gap (e : Nat) (a : Payload) (B : Buffer) (k : Nat) (p : Payload)
    (h : p ≠ []) (h2 : ¬(k + p.length ≤ e)) (h3 : e < k) :
    rstep (e, a, B) (k, p) = (e, a, bufInsert k p B) := by
  simp [rstep, reassemble_gap e a B k p h h2 h3]

theorem rstep_app (e : Nat) (a : Payload) (B : Buffer) (k : Nat) (p : Payload)
    (h : p ≠ []) (h2 : ¬(k + p.length ≤ e)) (h3 : ¬(e < k)) :
    rstep (e, a, B) (k, p) =
      ((drainBuffer B (e + (p.drop (e - k)).length)).2.1,
       a ++ p.drop (e - k) ++ (drainBuffer B (e + (p.drop (e - k)).length)).2.2,
       (drainBuffer B (e + (p.drop (e - k)).length)).1) := by
  simp [rstep, reassemble_app e a B k p h h2 h3]

theorem rstep_exp_mono (e : Nat) (a : Payload) (B : Buffer) (k : Nat) (p : Payload) :
    e ≤ (rstep (e, a, B) (k, p)).1 := by
  by_cases h : p = []
  · rw [rstep_empty e a B k p h]
  · by_cases h2 : k + p.length ≤ e
    · rw [rstep_old e a B k p h h2]
    · by_cases h3 : e < k
      · rw [rstep_gap e a B k p h h2 h3]
      · rw [rstep_app e a B k p h h2 h3]
        have := drainBuffer_mono B (e + (p.drop (e - k)).length)
        simp only
        omega

/-- The no-flags data-segment state transition is the identity. -/
theorem update_state_data (st : FlowState) :
    Flow.update_state st ⟨false, false, false, false⟩ = st := by
  simp [Flow.update_state]

theorem deliver_fields (f : Flow) (sp : Nat × Payload) :
    Flow.deliver f sp =
      { f with
          seq_number_ := (rstep f.rs sp).1
          payload_ := (rstep f.rs sp).2.1
          buffered_payload_ := (rstep f.rs sp).2.2 } := by
  simp [Flow.deliver, Flow.process_packet, dataSegment, rstep, Flow.rs, update_state_data]

theorem deliver_seq (f : Flow) (sp : Nat × Payload) :
    (Flow.deliver f sp).seq_number_ = (rstep f.rs sp).1 := by
  rw [deliver_fields]

theorem deliver_payload (f : Flow) (sp : Nat × Payload) :
    (Flow.deliver f sp).payload_ = (rstep f.rs sp).2.1 := by
  rw [deliver_fields]

theorem deliver_buf (f : Flow) (sp : Nat × Payload) :
    (Flow.deliver f sp).buffered_payload_ = (rstep f.rs sp).2.2 := by
  rw [deliver_fields]

theorem deliver_rs (f : Flow) (sp : Nat × Payload) :
    (Flow.deliver f sp).rs = rstep f.rs sp := by
  rw [Flow.rs, deliver_seq, deliver_payload, deliver_buf]

theorem deliver_frame (f : Flow) (sp : Nat × Payload) :
    (Flow.deliver f sp).dest_address_ = f.dest_address_ ∧
    (Flow.deliver f sp).dest_port_ = f.dest_port_ ∧
    (Flow.deliver f sp).is_v6_ = f.is_v6_ ∧
    (Flow.deliver f sp).state_ = f.state_ := by
  rw [deliver_fields]
  exact ⟨rfl, rfl, rfl, rfl⟩

theorem flow_ext (f g : Flow) (h1 : f.rs = g.rs) (h2 : f.dest_address_ = g.dest_address_)
    (h3 : f.dest_port_ = g.dest_port_) (h4 : f.is_v6_ = g.is_v6_)
    (h5 : f.state_ = g.state_) : f = g := by
  obtain ⟨p1, b1, s1, d1, q1, v1, t1⟩ := f
  obtain ⟨p2, b2, s2, d2, q2, v2, t2⟩ := g
  simp only [Flow.rs, Prod.mk.injEq] at h1
  simp only at h2 h3 h4 h5
  simp [h1.1, h1.2.1, h1.2.2, h2, h3, h4, h5]

/-- Non-overlap of two data segments: their byte ranges are disjoint (the
hypothesis of the order-independence property, spec section 8). -/
def SegDisjoint (a b : Nat × Payload) : Prop :=
  a.1 + a.2.length ≤ b.1 ∨ b.1 + b.2.length ≤ a.1

theorem segDisjoint_symm : Symmetric SegDisjoint := by
  intro a b h
  rcases h with h | h
  · right; exact h
  · left; exact h

theorem rstep_comm_app_gap (e : Nat) (a : Payload) (B : Buffer) (sx : Nat) (px : Payload)
    (sy : Nat) (py : Payload)
    (hk : ∀ c ∈ B, e < c.1 ∧ c.2 ≠ [])
    (hy : ∀ c ∈ B, c.1 + c.2.length ≤ sy ∨ sy + py.length ≤ c.1)
    (hxy : sx + px.length ≤ sy ∨ sy + py.length ≤ sx)
    (hpx : px ≠ []) (hpy : py ≠ [])
    (hxa : sx ≤ e) (hxa2 : e < sx + px.length)
    (hyg : e < sy) :
    rstep (rstep (e, a, B) (sx, px)) (sy, py) = rstep (rstep (e, a, B) (sy, py)) (sx, px) := by
  have hlx : 0 < px.length := List.length_pos.mpr hpx
  have hly : 0 < py.length := List.length_pos.mpr hpy
  have hadd : (px.drop (e - sx)).length = px.length - (e - sx) := List.length_drop _ _
  have he1 : e + (px.drop (e - sx)).length = sx + px.length := by omega
  have hxo : ¬(sx + px.length ≤ e) := by omega
  have hxg : ¬(e < sx) := by omega
  have hyo : ¬(sy + py.length ≤ e) := by omega
  have hne : ∀ c ∈ B, c.1 ≠ sy := by
    intro c hc hceq
    rcases hy c hc with hcy | hcy
    · have hce := (hk c hc).2
      have hcl : 0 < c.2.length := List.length_pos.mpr hce
      omega
    · omega
  have he1y : sx + px.length ≤ sy := by
    rcases hxy with hcase | hcase
    · exact hcase
    · omega
  rw [rstep_app e a B sx px hpx hxo hxg, rstep_gap e a B sy py hpy hyo hyg, he1]
  set D := drainBuffer B (sx + px.length) with hD
  have hE2le : D.2.1 ≤ sy :=
    drainBuffer_le_of_apart B (sx + px.length) sy py.length hly he1y hy
  have hE2ge : sx + px.length ≤ D.2.1 := drainBuffer_mono B (sx + px.length)
  rcases Nat.lt_or_ge D.2.1 sy with hE2lt | hE2ge2
  · rw [rstep_gap D.2.1 (a ++ px.drop (e - sx) ++ D.2.2) D.1 sy py hpy (by omega) hE2lt,
      rstep_app e a (bufInsert sy py B) sx px hpx hxo hxg, he1,
      drainBuffer_insert_high B (sx + px.length) sy py hne hE2lt]
  · have hE2eq : D.2.1 = sy := by omega
    rw [rstep_app D.2.1 (a ++ px.drop (e - sx) ++ D.2.2) D.1 sy py hpy (by omega) (by omega),
      rstep_app e a (bufInsert sy py B) sx px hpx hxo hxg, he1,
      drainBuffer_insert_hit B (sx + px.length) sy py hpy hne hE2eq]
    rw [show D.2.1 - sy = 0 by omega, List.drop_zero, hE2eq]
    simp [List.append_assoc]

theorem rstep_empty_any (t : RState) (k : Nat) (p : Payload) (h : p = []) :
    rstep t (k, p) = t := by
  obtain ⟨e, a, B⟩ := t
  exact rstep_empty e a B k p h

theorem rstep_old_any (t : RState) (k : Nat) (p : Payload) (h : p ≠ [])
    (h2 : k + p.length ≤ t.1) : rstep t (k, p) = t := by
  obtain ⟨e, a, B⟩ := t
  exact rstep_old e a B k p h h2

theorem rstep_exp_mono_any (t : RState) (sp : Nat × Payload) : t.1 ≤ (rstep t sp).1 := by
  obtain ⟨e, a, B⟩ := t
  obtain ⟨k, p⟩ := sp
  exact rstep_exp_mono e a B k p

theorem rstep_comm (e : Nat) (a : Payload) (B : Buffer) (x y : Nat × Payload)
    (hk : ∀ c ∈ B, e < c.1 ∧ c.2 ≠ [])
    (hx : ∀ c ∈ B, c.1 + c.2.length ≤ x.1 ∨ x.1 + x.2.length ≤ c.1)
    (hy : ∀ c ∈ B, c.1 + c.2.length ≤ y.1 ∨ y.1 + y.2.length ≤ c.1)
    (hxy : SegDisjoint x y) :
    rstep (rstep (e, a, B) x) y = rstep (rstep (e, a, B) y) x := by
  obtain ⟨sx, px⟩ := x
  obtain ⟨sy, py⟩ := y
  simp only [SegDisjoint] at hxy hx hy
  by_cases hpx : px = []
  · rw [rstep_empty_any _ sx px hpx, rstep_empty_any _ sx px hpx]
  · by_cases hpy : py = []
    · rw [rstep_empty_any _ sy py hpy, rstep_empty_any _ sy py hpy]
    · have hlx : 0 < px.length := List.length_pos.mpr hpx
      have hly : 0 < py.length := List.length_pos.mpr hpy
      by_cases hxold : sx + px.length ≤ e
      · rw [rstep_old_any (e, a, B) sx px hpx hxold]
        have hmono := rstep_exp_mono_any (e, a, B) (sy, py)
        rw [rstep_old_any _ sx px hpx (le_trans hxold hmono)]
      · by_cases hyold : sy + py.length ≤ e
        · rw [rstep_old_any (e, a, B) sy py hpy hyold]
          have hmono := rstep_exp_mono_any (e, a, B) (sx, px)
          rw [rstep_old_any _ sy py hpy (le_trans hyold hmono)]
        · by_cases hxgap : e < sx
          · by_cases hygap : e < sy
            · rw [rstep_gap e a B sx px hpx hxold hxgap,
                rstep_gap e a B sy py hpy hyold hygap,
                rstep_gap e a (bufInsert sx px B) sy py hpy hyold hygap,
                rstep_gap e a (bufInsert sy py B) sx px hpx hxold hxgap,
                bufInsert_comm sy sx py px B (by omega)]
            · refine (rstep_comm_app_gap e a B sy py sx px hk hx ?_ hpy hpx
                (by omega) (by omega) hxgap).symm
              rcases hxy with h | h
              · right; exact h
              · left; exact h
          · by_cases hygap : e < sy
            · exact rstep_comm_app_gap e a B sx px sy py hk hy hxy hpx hpy
                (by omega) (by omega) hygap
            · exfalso
              rcases hxy with h | h <;> omega

theorem deliver_dest (f : Flow) (sp : Nat × Payload) :
    (Flow.deliver f sp).dest_address_ = f.dest_address_ := by
  rw [deliver_fields]

theorem deliver_port (f : Flow) (sp : Nat × Payload) :
    (Flow.deliver f sp).dest_port_ = f.dest_port_ := by
  rw [deliver_fields]

theorem deliver_v6 (f : Flow) (sp : Nat × Payload) :
    (Flow.deliver f sp).is_v6_ = f.is_v6_ := by
  rw [deliver_fields]

theorem deliver_state (f : Flow) (sp : Nat × Payload) :
    (Flow.deliver f sp).state_ = f.state_ := by
  rw [deliver_fields]

/-- Well-formedness and provenance of the reassembly state across one step: the
buffer stays sorted, strictly ahead of the next-expected number with nonempty
chunks, and every chunk of the new buffer is an old chunk or the delivered
segment itself. -/
theorem rstep_wf (e : Nat) (a : Payload) (B : Buffer) (sx : Nat) (px : Payload)
    (hsort : BufSorted B) (hk : ∀ c ∈ B, e < c.1 ∧ c.2 ≠ []) :
    BufSorted (rstep (e, a, B) (sx, px)).2.2 ∧
    (∀ c ∈ (rstep (e, a, B) (sx, px)).2.2,
      (rstep (e, a, B) (sx, px)).1 < c.1 ∧ c.2 ≠ []) ∧
    (∀ c ∈ (rstep (e, a, B) (sx, px)).2.2, c ∈ B ∨ c = (sx, px)) := by
  by_cases hpx : px = []
  · rw [rstep_empty e a B sx px hpx]
    exact ⟨hsort, hk, fun c hc => Or.inl hc⟩
  · by_cases hold : sx + px.length ≤ e
    · rw [rstep_old e a B sx px hpx hold]
      exact ⟨hsort, hk, fun c hc => Or.inl hc⟩
    · by_cases hgap : e < sx
      · rw [rstep_gap e a B sx px hpx hold hgap]
        refine ⟨bufInsert_sorted sx px B hsort, ?_, ?_⟩
        · intro c hc
          rcases mem_bufInsert sx px B c hc with hc | hc
          · exact hk c hc
          · rw [hc]
            exact ⟨hgap, hpx⟩
        · intro c hc
          rcases mem_bufInsert sx px B c hc with hc | hc
          · exact Or.inl hc
          · exact Or.inr hc
      · rw [rstep_app e a B sx px hpx hold hgap]
        refine ⟨drainBuffer_sorted B _ hsort, ?_, ?_⟩
        · intro c hc
          exact ⟨drainBuffer_keys B _ hsort c hc,
            (hk c (drainBuffer_sub B _ c hc)).2⟩
        · intro c hc
          exact Or.inl (drainBuffer_sub B _ c hc)

/-- Invariant carried through an order-independence run: the buffer is sorted,
strictly ahead of the next-expected number with nonempty chunks, every
buffered chunk is apart from every still-undelivered segment, and the
undelivered segments are pairwise non-overlapping. -/
def RunWF (f : Flow) (l : List (Nat × Payload)) : Prop :=
  BufSorted f.buffered_payload_ ∧
  (∀ c ∈ f.buffered_payload_, f.seq_number_ < c.1 ∧ c.2 ≠ []) ∧
  (∀ sp ∈ l, ∀ c ∈ f.buffered_payload_,
    c.1 + c.2.length ≤ sp.1 ∨ sp.1 + sp.2.length ≤ c.1) ∧
  l.Pairwise SegDisjoint

theorem runWF_step (f : Flow) (x : Nat × Payload) (l : List (Nat × Payload))
    (h : RunWF f (x :: l)) : RunWF (Flow.deliver f x) l := by
  obtain ⟨hsort, hk, hap, hpw⟩ := h
  obtain ⟨sx, px⟩ := x
  have hwf := rstep_wf f.seq_number_ f.payload_ f.buffered_payload_ sx px hsort hk
  have hrs : f.rs = (f.seq_number_, f.payload_, f.buffered_payload_) := rfl
  refine ⟨?_, ?_, ?_, (List.pairwise_cons.mp hpw).2⟩
  · rw [deliver_buf, hrs]
    exact hwf.1
  · rw [deliver_buf, deliver_seq, hrs]
    exact hwf.2.1
  · intro sp hsp c hc
    rw [deliver_buf, hrs] at hc
    rcases hwf.2.2 c hc with hcB | hcx
    · exact hap sp (List.mem_cons_of_mem _ hsp) c hcB
    · rw [hcx]
      have hd : SegDisjoint (sx, px) sp := List.rel_of_pairwise_cons hpw hsp
      rcases hd with hd | hd
      · exact Or.inl hd
      · exact Or.inr hd

theorem deliver_comm (f : Flow) (x y : Nat × Payload)
    (hk : ∀ c ∈ f.buffered_payload_, f.seq_number_ < c.1 ∧ c.2 ≠ [])
    (hx : ∀ c ∈ f.buffered_payload_, c.1 + c.2.length ≤ x.1 ∨ x.1 + x.2.length ≤ c.1)
    (hy : ∀ c ∈ f.buffered_payload_, c.1 + c.2.length ≤ y.1 ∨ y.1 + y.2.length ≤ c.1)
    (hxy : SegDisjoint x y) :
    Flow.deliver (Flow.deliver f x) y = Flow.deliver (Flow.deliver f y) x := by
  apply flow_ext
  · rw [deliver_rs, deliver_rs, deliver_rs, deliver_rs]
    exact rstep_comm f.seq_number_ f.payload_ f.buffered_payload_ x y hk hx hy hxy
  · simp [deliver_dest]
  · simp [deliver_port]
  · simp [deliver_v6]
  · simp [deliver_state]

theorem runWF_perm (l₁ l₂ : List (Nat × Payload)) (hp : l₁.Perm l₂) (f : Flow)
    (h : RunWF f l₁) : RunWF f l₂ := by
  obtain ⟨hs, hk, hap, hpw⟩ := h
  exact ⟨hs, hk, fun sp hsp => hap sp (hp.mem_iff.mpr hsp),
    (hp.pairwise_iff (fun hab => segDisjoint_symm hab)).mp hpw⟩

theorem runData_perm (l₁ l₂ : List (Nat × Payload)) (hperm : l₁.Perm l₂) :
    ∀ f : Flow, RunWF f l₁ → Flow.runData f l₁ = Flow.runData f l₂ := by
  induction hperm with
  | nil => intro f _; rfl
  | cons x hp ih =>
    intro f hwf
    show Flow.runData (Flow.deliver f x) _ = Flow.runData (Flow.deliver f x) _
    exact ih (Flow.deliver f x) (runWF_step f x _ hwf)
  | swap x y l =>
    intro f hwf
    obtain ⟨hsort, hk, hap, hpw⟩ := hwf
    show Flow.runData (Flow.deliver (Flow.deliver f y) x) l =
      Flow.runData (Flow.deliver (Flow.deliver f x) y) l
    rw [deliver_comm f y x hk
      (fun c hc => hap y (List.mem_cons_self _ _) c hc)
      (fun c hc => hap x (List.mem_cons_of_mem _ (List.mem_cons_self _ _)) c hc)
      (List.rel_of_pairwise_cons hpw (List.mem_cons_self _ _))]
  | trans h12 h23 ih12 ih23 =>
    intro f hwf
    rw [ih12 f hwf]
    exact ih23 f (runWF_perm _ _ h12 f hwf)

/-- The in-order delivery hypothesis of the concatenation property: each
segment's sequence number equals the next-expected number current at its
delivery (spec section 8, first testable property). -/
def InOrder : Nat → List (Nat × Payload) → Prop
  | _, [] => True
  | e, sp :: t => sp.1 = e ∧ InOrder (e + sp.2.length) t

theorem rstep_in_order (e : Nat) (a : Payload) (pl : Payload) :
    rstep (e, a, []) (e, pl) = (e + pl.length, a ++ pl, []) := by
  by_cases hpl : pl = []
  · rw [rstep_empty e a [] e pl hpl, hpl]
    simp
  · have hlp : 0 < pl.length := List.length_pos.mpr hpl
    have h2 : ¬(e + pl.length ≤ e) := by omega
    rw [rstep_app e a [] e pl hpl h2 (lt_irrefl e)]
    simp [Nat.sub_self, drainBuffer_nil]

theorem runData_rs (l : List (Nat × Payload)) :
    ∀ f : Flow, (Flow.runData f l).rs = l.foldl rstep f.rs := by
  induction l with
  | nil => intro f; rfl
  | cons sp t ih =>
    intro f
    show (Flow.runData (Flow.deliver f sp) t).rs = List.foldl rstep (rstep f.rs sp) t
    rw [ih (Flow.deliver f sp), deliver_rs]

theorem foldl_rstep_in_order : ∀ (l : List (Nat × Payload)) (e : Nat) (a : Payload),
    InOrder e l →
    l.foldl rstep (e, a, []) =
      (e + ((l.map Prod.snd).flatten).length, a ++ (l.map Prod.snd).flatten, []) := by
  intro l
  induction l with
  | nil =>
    intro e a _
    simp
  | cons sp t ih =>
    intro e a hio
    obtain ⟨sq, pl⟩ := sp
    obtain ⟨hseq, hio2⟩ := hio
    simp only at hseq
    subst hseq
    show List.foldl rstep (rstep (sq, a, []) (sq, pl)) t = _
    rw [rstep_in_order sq a pl, ih (sq + pl.length) (a ++ pl) hio2]
    simp [List.append_assoc]
    omega

theorem process_fields (f : Flow) (s : Segment) :
    (Flow.process_packet f s).1 =
      { f with
          state_ := Flow.update_state f.state_ s.flags
          seq_number_ := (rstep f.rs (s.seq, s.payload)).1
          payload_ := (rstep f.rs (s.seq, s.payload)).2.1
          buffered_payload_ := (rstep f.rs (s.seq, s.payload)).2.2 } := by
  simp [Flow.process_packet, rstep, Flow.rs]

theorem rstep_len (seq0 e : Nat) (a : Payload) (B : Buffer) (sx : Nat) (px : Payload)
    (h : e = seq0 + a.length) :
    (rstep (e, a, B) (sx, px)).1 = seq0 + (rstep (e, a, B) (sx, px)).2.1.length := by
  by_cases hpx : px = []
  · rw [rstep_empty e a B sx px hpx]
    exact h
  · by_cases hold : sx + px.length ≤ e
    · rw [rstep_old e a B sx px hpx hold]
      exact h
    · by_cases hgap : e < sx
      · rw [rstep_gap e a B sx px hpx hold hgap]
        exact h
      · rw [rstep_app e a B sx px hpx hold hgap]
        have hb := drainBuffer_exp_bytes B (e + (px.drop (e - sx)).length)
        simp only [List.length_append]
        omega

/-- Reassembly invariant of a Flow relative to its initial expected sequence
number (the spec section 3 Flow invariant, strengthened for induction). -/
def FlowWF (seq0 : Nat) (f : Flow) : Prop :=
  f.seq_number_ = seq0 + f.payload_.length ∧
  BufSorted f.buffered_payload_ ∧
  (∀ c ∈ f.buffered_payload_, f.seq_number_ < c.1 ∧ c.2 ≠ [])

theorem flowWF_step (seq0 : Nat) (f : Flow) (s : Segment) (h : FlowWF seq0 f) :
    FlowWF seq0 (Flow.process_packet f s).1 := by
  obtain ⟨hlen, hsort, hkey⟩ := h
  have hwf := rstep_wf f.seq_number_ f.payload_ f.buffered_payload_ s.seq s.payload hsort hkey
  refine ⟨?_, ?_, ?_⟩
  · rw [process_fields]
    exact rstep_len seq0 f.seq_number_ f.payload_ f.buffered_payload_ s.seq s.payload hlen
  · rw [process_fields]
    exact hwf.1
  · rw [process_fields]
    intro c hc
    exact hwf.2.1 c hc

theorem flowWF_init (addr : List Nat) (port seq0 : Nat) (v6 : Bool) :
    FlowWF seq0 (Flow.init addr port seq0 v6) := by
  refine ⟨?_, List.Pairwise.nil, ?_⟩
  · simp [Flow.init]
  · intro c hc
    exact absurd hc (List.not_mem_nil c)

theorem flowWF_run (seq0 : Nat) (l : List Segment) :
    ∀ (f : Flow), FlowWF seq0 f → FlowWF seq0 (Flow.run f l) := by
  induction l with
  | nil => intro f h; exact h
  | cons s t ih =>
    intro f h
    show FlowWF seq0 (Flow.run (Flow.process_packet f s).1 t)
    exact ih (Flow.process_packet f s).1 (flowWF_step seq0 f s h)

theorem addr_lt_irrefl : ∀ a : List Nat, addr_lt a a = false := by
  intro a
  induction a with
  | nil => rfl
  | cons x t ih => simp [addr_lt, ih]

theorem addr_lt_asymm : ∀ a b : List Nat, addr_lt a b = true → addr_lt b a = false := by
  intro a
  induction a with
  | nil =>
    intro b h
    cases b with
    | nil => exact absurd h (by simp [addr_lt])
    | cons y bs => rfl
  | cons x as ih =>
    intro b h
    cases b with
    | nil => exact absurd h (by simp [addr_lt])
    | cons y bs =>
      simp only [addr_lt] at h ⊢
      by_cases hxy : x < y
      · have hyx : ¬y < x := by omega
        simp [hxy, hyx]
      · by_cases hyx : y < x
        · simp [hxy, hyx] at h
        · simp [hxy, hyx] at h ⊢
          exact ih bs h

theorem addr_lt_conn : ∀ a b : List Nat, addr_lt a b = false → addr_lt b a = false → a = b := by
  intro a
  induction a with
  | nil =>
    intro b h1 h2
    cases b with
    | nil => rfl
    | cons y bs => simp [addr_lt] at h1
  | cons x as ih =>
    intro b h1 h2
    cases b with
    | nil => simp [addr_lt] at h2
    | cons y bs =>
      simp only [addr_lt] at h1 h2
      by_cases hxy : x < y
      · simp [hxy] at h1
      · by_cases hyx : y < x
        · simp [hxy, hyx] at h2
        · simp [hxy, hyx] at h1 h2
          have hx : x = y := by omega
          rw [hx, ih bs h1 h2]

theorem make_stream_id_symm (A : List Nat) (pA : Nat) (B : List Nat) (pB : Nat) :
    make_stream_id A pA B pB = make_stream_id B pB A pA := by
  unfold make_stream_id endpoint_lt
  by_cases h1 : addr_lt B A = true
  · have h2 := addr_lt_asymm B A h1
    simp [h1, h2]
  · have h1f : addr_lt B A = false := by
      revert h1
      cases addr_lt B A <;> simp
    by_cases h2 : addr_lt A B = true
    · have h3 := addr_lt_asymm A B h2
      simp [h2, h3]
    · have h2f : addr_lt A B = false := by
        revert h2
        cases addr_lt A B <;> simp
      have heq : A = B := addr_lt_conn A B h2f h1f
      subst heq
      simp only [addr_lt_irrefl]
      rcases Nat.lt_trichotomy pA pB with hp | hp | hp
      · have hp2 : ¬pB < pA := by omega
        simp [hp, hp2]
      · subst hp
        simp
      · have hp2 : ¬pA < pB := by omega
        simp [hp, hp2]

theorem update_state_mono (st : StreamState) (d : Bool) (fl : TcpFlags) :
    st.rank ≤ (Stream.update_state st d fl).rank := by
  obtain ⟨s, a, f, r⟩ := fl
  cases st <;> cases d <;> cases s <;> cases a <;> cases f <;> cases r <;> decide

theorem rank_closed (st : StreamState) (h : 7 ≤ st.rank) : st = StreamState.CLOSED := by
  cases st <;> simp [StreamState.rank] at h ⊢

theorem stream_process_state (st : Stream) (s : Segment) :
    (Stream.process_packet st s).1.state_ = Stream.update_state st.state_ true s.flags ∨
    (Stream.process_packet st s).1.state_ = Stream.update_state st.state_ false s.flags ∨
    (Stream.process_packet st s).1.state_ = st.state_ := by
  unfold Stream.process_packet
  by_cases h1 : st.client_flow_.packet_belongs s
  · simp [h1]
  · by_cases h2 : st.server_flow_.packet_belongs s
    · simp [h1, h2]
    · simp [h1, h2]

theorem stream_process_mono (st : Stream) (s : Segment) :
    st.state_.rank ≤ (Stream.process_packet st s).1.state_.rank := by
  rcases stream_process_state st s with h | h | h
  · rw [h]
    exact update_state_mono st.state_ true s.flags
  · rw [h]
    exact update_state_mono st.state_ false s.flags
  · rw [h]

theorem stream_process_closed (st : Stream) (s : Segment)
    (h : st.state_ = StreamState.CLOSED) :
    (Stream.process_packet st s).1.state_ = StreamState.CLOSED := by
  have hm := stream_process_mono st s
  rw [h] at hm
  exact rank_closed _ hm

theorem update_state_rst (st : StreamState) (d : Bool) (fl : TcpFlags) (h : fl.rst = true) :
    Stream.update_state st d fl = StreamState.CLOSED := by
  simp [Stream.update_state, h]

theorem stream_process_rst (st : Stream) (s : Segment)
    (hb : st.client_flow_.packet_belongs s = true ∨ st.server_flow_.packet_belongs s = true)
    (hr : s.flags.rst = true) :
    (Stream.process_packet st s).1.state_ = StreamState.CLOSED := by
  unfold Stream.process_packet
  by_cases h1 : st.client_flow_.packet_belongs s
  · simp [h1, update_state_rst _ _ _ hr]
  · rcases hb with hb | hb
    · exact absurd hb h1
    · simp [h1, hb, update_state_rst _ _ _ hr]

theorem lookupId_eraseId (l : List (stream_id × Stream)) (k : stream_id) :
    lookupId (eraseId l k) k = none := by
  induction l with
  | nil => rfl
  | cons hd t ih =>
    obtain ⟨k2, v⟩ := hd
    by_cases h : k2 = k
    · have he : eraseId ((k2, v) :: t) k = eraseId t k := by
        simp [eraseId, List.filter_cons, h]
      rw [he]
      exact ih
    · have he : eraseId ((k2, v) :: t) k = (k2, v) :: eraseId t k := by
        simp [eraseId, List.filter_cons, h]
      rw [he]
      simp only [lookupId, if_neg h]
      exact ih

theorem lookupId_insertId (l : List (stream_id × Stream)) (k : stream_id) (v : Stream) :
    lookupId (insertId l k v) k = some v := by
  simp [insertId, lookupId]

theorem follower_step_some (sf : StreamFollower) (s : Segment) (st : Stream)
    (htcp : s.tcp = true)
    (hl : lookupId sf.streams_ (make_stream_id s.src_addr s.sport s.dst_addr s.dport) = some st) :
    lookupId (StreamFollower.process_packet sf s).1.streams_
        (make_stream_id s.src_addr s.sport s.dst_addr s.dport) =
      (if (st.process_packet s).1.is_finished = true then none
       else some (st.process_packet s).1) := by
  unfold StreamFollower.process_packet
  by_cases hf : (st.process_packet s).1.is_finished = true
  · simp [htcp, hl, hf, lookupId_eraseId]
  · simp [htcp, hl, hf, lookupId_insertId]

theorem follower_non_tcp (sf : StreamFollower) (s : Segment) (h : s.tcp = false) :
    StreamFollower.process_packet sf s = (sf, false, []) := by
  simp [StreamFollower.process_packet, h]

theorem stream_ignore (st : Stream) (s : Segment)
    (h1 : st.client_flow_.packet_belongs s = false)
    (h2 : st.server_flow_.packet_belongs s = false) :
    Stream.process_packet st s = (st, []) := by
  simp [Stream.process_packet, h1, h2]

theorem process_old (f : Flow) (s : Segment)
    (h : s.seq + s.payload.length ≤ f.seq_number_) :
    (Flow.process_packet f s).1.payload_ = f.payload_ ∧
    (Flow.process_packet f s).1.buffered_payload_ = f.buffered_payload_ ∧
    (Flow.process_packet f s).1.seq_number_ = f.seq_number_ ∧
    (Flow.process_packet f s).2 = [] := by
  by_cases hpl : s.payload = []
  · simp [Flow.process_packet,
      reassemble_empty f.seq_number_ f.payload_ f.buffered_payload_ s.seq s.payload hpl]
  · simp [Flow.process_packet,
      reassemble_old f.seq_number_ f.payload_ f.buffered_payload_ s.seq s.payload hpl h]

theorem process_slice (f : Flow) (s : Segment) (h1 : s.seq < f.seq_number_)
    (h2 : f.seq_number_ < s.seq + s.payload.length) :
    Flow.process_packet f s =
      Flow.process_packet f
        { s with seq := f.seq_number_,
                 payload := s.payload.drop (f.seq_number_ - s.seq) } := by
  have hpl : s.payload ≠ [] := by
    intro hc
    rw [hc] at h2
    simp at h2
    omega
  have hdl : (s.payload.drop (f.seq_number_ - s.seq)).length =
      s.payload.length - (f.seq_number_ - s.seq) := List.length_drop _ _
  have hpl2 : s.payload.drop (f.seq_number_ - s.seq) ≠ [] := by
    intro hc
    rw [hc] at hdl
    simp at hdl
    omega
  have hl2 : 0 < (s.payload.drop (f.seq_number_ - s.seq)).length :=
    List.length_pos.mpr hpl2
  have hre : reassemble f.seq_number_ f.payload_ f.buffered_payload_ s.seq s.payload =
      reassemble f.seq_number_ f.payload_ f.buffered_payload_ f.seq_number_
        (s.payload.drop (f.seq_number_ - s.seq)) := by
    rw [reassemble_app f.seq_number_ f.payload_ f.buffered_payload_ s.seq s.payload hpl
        (by omega) (by omega),
      reassemble_app f.seq_number_ f.payload_ f.buffered_payload_ f.seq_number_
        (s.payload.drop (f.seq_number_ - s.seq)) hpl2 (by omega) (by omega)]
    simp [Nat.sub_self]
  simp [Flow.process_packet, hre]

instance instSegDisjointDec : DecidableRel SegDisjoint := fun a b =>
  inferInstanceAs (Decidable (a.1 + a.2.length ≤ b.1 ∨ b.1 + b.2.length ≤ a.1))

/-- A payload-free control segment (SYN/ACK/FIN/RST exchanges). -/
def ctrlSegment (sa : List Nat) (sp : Nat) (da : List Nat) (dp : Nat) (sq : Nat)
    (fl : TcpFlags) : Segment :=
  { tcp := true, v6 := false, src_addr := sa, dst_addr := da, sport := sp, dport := dp,
    seq := sq, flags := fl, payload := [] }

def clientAddr : List Nat := [192, 168, 0, 1]

def serverAddr : List Nat := [10, 0, 0, 1]

def synSeg : Segment := ctrlSegment clientAddr 5000 serverAddr 80 100 ⟨true, false, false, false⟩

def synAckSeg : Segment := ctrlSegment serverAddr 80 clientAddr 5000 500 ⟨true, true, false, false⟩

def ackSeg : Segment := ctrlSegment clientAddr 5000 serverAddr 80 101 ⟨false, true, false, false⟩

def finClientSeg : Segment := ctrlSegment clientAddr 5000 serverAddr 80 101 ⟨false, true, true, false⟩

def ackServerSeg : Segment := ctrlSegment serverAddr 80 clientAddr 5000 501 ⟨false, true, false, false⟩

def finServerSeg : Segment := ctrlSegment serverAddr 80 clientAddr 5000 501 ⟨false, true, true, false⟩

def lastAckSeg : Segment := ctrlSegment clientAddr 5000 serverAddr 80 102 ⟨false, true, false, false⟩

def rstSeg : Segment := ctrlSegment serverAddr 80 clientAddr 5000 500 ⟨false, false, false, true⟩

/-- The section 8 handshake-and-teardown scenario: SYN, SYN/ACK, ACK, then a
mutual FIN/ACK exchange from both sides. -/
def handshakeTeardown : List Segment :=
  [synSeg, synAckSeg, ackSeg, finClientSeg, ackServerSeg, finServerSeg, lastAckSeg]

def demoFollower : StreamFollower :=
  (StreamFollower.process_packet StreamFollower.init synSeg).1

def demoStream : Stream := ((Stream.init synSeg).process_packet synSeg).1

def nonTcpSeg : Segment :=
  { tcp := false, v6 := false, src_addr := [], dst_addr := [], sport := 0, dport := 0,
    seq := 0, flags := ⟨false, false, false, false⟩, payload := [] }

def straySeg : Segment := ctrlSegment [1] 1 [2] 2 0 ⟨false, false, false, false⟩

def flowC10 : Flow := Flow.init [1] 80 0 false

/-- C1: for every in-order delivery of segments to one Flow via process_packet,
with each segment's sequence number equal to the current next-expected number,
the Flow's in-order payload accumulator afterwards equals the concatenation of
all the segment payloads in sequence order. -/
theorem claim_C1 (addr : List Nat) (port seq0 : Nat) (v6 : Bool)
    (l : List (Nat × Payload)) (h : InOrder seq0 l) :
    (Flow.runData (Flow.init addr port seq0 v6) l).payload_ =
      (l.map Prod.snd).flatten := by
  have hrs := runData_rs l (Flow.init addr port seq0 v6)
  have hinit : (Flow.init addr port seq0 v6).rs = (seq0, [], []) := rfl
  rw [hinit, foldl_rstep_in_order l seq0 [] h] at hrs
  have hp : (Flow.runData (Flow.init addr port seq0 v6) l).payload_ =
      ((Flow.runData (Flow.init addr port seq0 v6) l).rs).2.1 := rfl
  rw [hp, hrs]
  simp

theorem claim_C1_witness :
    (Flow.runData (Flow.init [10] 80 5 false) [(5, [1, 2]), (7, [3])]).payload_ =
      [1, 2, 3] :=
  claim_C1 [10] 80 5 false [(5, [1, 2]), (7, [3])] (by simp [InOrder])

/-- C2: for every fixed finite set of non-overlapping segments for one Flow and
every two permutations of that set, delivering each segment exactly once via
process_packet in either permutation's order yields the identical final
reconstructed byte sequence in the accumulator. -/
theorem claim_C2 (addr : List Nat) (port seq0 : Nat) (v6 : Bool)
    (l₁ l₂ : List (Nat × Payload)) (hp : l₁.Perm l₂) (hd : l₁.Pairwise SegDisjoint) :
    (Flow.runData (Flow.init addr port seq0 v6) l₁).payload_ =
    (Flow.runData (Flow.init addr port seq0 v6) l₂).payload_ := by
  have hwf : RunWF (Flow.init addr port seq0 v6) l₁ := by
    refine ⟨List.Pairwise.nil, ?_, ?_, hd⟩
    · intro c hc
      exact absurd hc (List.not_mem_nil c)
    · intro sp _ c hc
      exact absurd hc (List.not_mem_nil c)
  rw [runData_perm l₁ l₂ hp (Flow.init addr port seq0 v6) hwf]

theorem claim_C2_witness :
    (Flow.runData (Flow.init [10] 80 0 false) [(0, [1]), (2, [2, 3])]).payload_ =
    (Flow.runData (Flow.init [10] 80 0 false) [(2, [2, 3]), (0, [1])]).payload_ :=
  claim_C2 [10] 80 0 false [(0, [1]), (2, [2, 3])] [(2, [2, 3]), (0, [1])]
    (by decide) (by decide)

/-- C3: processing a segment whose byte range has already been fully delivered
appends no bytes to the accumulator and invokes no callback, and a partially
overlapping retransmission is processed exactly as the new segment obtained by
discarding the already-delivered prefix and starting at the next-expected
sequence number. -/
theorem claim_C3 :
    (∀ (f : Flow) (s : Segment), s.seq + s.payload.length ≤ f.seq_number_ →
        (Flow.process_packet f s).1.payload_ = f.payload_ ∧
        (Flow.process_packet f s).2 = []) ∧
    (∀ (f : Flow) (s : Segment), s.seq < f.seq_number_ →
        f.seq_number_ < s.seq + s.payload.length →
        Flow.process_packet f s =
          Flow.process_packet f
            { s with seq := f.seq_number_,
                     payload := s.payload.drop (f.seq_number_ - s.seq) }) := by
  constructor
  · intro f s h
    exact ⟨(process_old f s h).1, (process_old f s h).2.2.2⟩
  · intro f s h1 h2
    exact process_slice f s h1 h2

theorem claim_C3_witness :
    (Flow.process_packet (Flow.init [10] 80 100 false) (dataSegment 90 [1, 2])).1.payload_ =
      (Flow.init [10] 80 100 false).payload_ ∧
    Flow.process_packet (Flow.init [10] 80 100 false) (dataSegment 98 [1, 2, 3, 4]) =
      Flow.process_packet (Flow.init [10] 80 100 false)
        { dataSegment 98 [1, 2, 3, 4] with seq := 100, payload := [3, 4] } :=
  ⟨(claim_C3.1 (Flow.init [10] 80 100 false) (dataSegment 90 [1, 2]) (by decide)).1,
   claim_C3.2 (Flow.init [10] 80 100 false) (dataSegment 98 [1, 2, 3, 4])
     (by decide) (by decide)⟩

/-- C4: after every sequence of process_packet calls on a Flow, the in-order
accumulator spans exactly the contiguous range from the initial expected
sequence number up to the tracked next-expected number, and every key in the
out-of-order buffer is strictly greater than the next-expected number. -/
theorem claim_C4 (addr : List Nat) (port seq0 : Nat) (v6 : Bool) (l : List Segment) :
    (Flow.run (Flow.init addr port seq0 v6) l).seq_number_ =
      seq0 + (Flow.run (Flow.init addr port seq0 v6) l).payload_.length ∧
    ∀ c ∈ (Flow.run (Flow.init addr port seq0 v6) l).buffered_payload_,
      (Flow.run (Flow.init addr port seq0 v6) l).seq_number_ < c.1 := by
  have h := flowWF_run seq0 l (Flow.init addr port seq0 v6) (flowWF_init addr port seq0 v6)
  exact ⟨h.1, fun c hc => (h.2.2 c hc).1⟩

/-- C5: the normalized connection identifier is symmetric under swapping source
and destination endpoints, so segments travelling in either direction of the
same connection look up the same Stream in the follower's table. -/
theorem claim_C5 (A : List Nat) (pA : Nat) (B : List Nat) (pB : Nat)
    (sf : StreamFollower) :
    make_stream_id A pA B pB = make_stream_id B pB A pA ∧
    lookupId sf.streams_ (make_stream_id A pA B pB) =
      lookupId sf.streams_ (make_stream_id B pB A pA) := by
  refine ⟨make_stream_id_symm A pA B pB, ?_⟩
  rw [make_stream_id_symm A pA B pB]

/-- C6: a Flow expecting sequence 100 that receives [100,140), then [180,200),
then [140,180) fires the data callback once for [100,140), the buffering
callback once for [180,200), and upon the third segment a single data callback
covering the merged contiguous range [140,200). -/
theorem claim_C6 :
    (Flow.runTrace (Flow.init [10] 80 100 false)
      [(100, List.replicate 40 1), (180, List.replicate 20 2),
       (140, List.replicate 40 3)]).2 =
      [FlowEvent.data 100 140, FlowEvent.buffering 180 200, FlowEvent.data 140 200] := by
  decide

/-- C7: the composite Stream state advances monotonically in the declaration
order of `enum Stream::State`, CLOSED is absorbing, and the section 8
handshake followed by a mutual FIN/ACK exchange drives the Stream to CLOSED
with exactly one closed-callback invocation. -/
theorem claim_C7 :
    (∀ (st : Stream) (s : Segment),
        st.state_.rank ≤ (Stream.process_packet st s).1.state_.rank) ∧
    (∀ (st : Stream) (s : Segment),
        (Stream.process_packet { st with state_ := StreamState.CLOSED } s).1.state_ =
          StreamState.CLOSED) ∧
    (Stream.runTrace (Stream.init synSeg) handshakeTeardown).1.state_ =
      StreamState.CLOSED ∧
    ((Stream.runTrace (Stream.init synSeg) handshakeTeardown).2.filter
        (fun ev => ev == StreamEvent.closed)).length = 1 := by
  refine ⟨stream_process_mono, ?_, by decide, by decide⟩
  intro st s
  exact stream_process_closed { st with state_ := StreamState.CLOSED } s rfl

/-- C8: a segment with RST routed to either Flow of a Stream moves the Stream to
CLOSED in every composite state; after the follower delivers a packet to a
stored Stream, that Stream remains in the table exactly when it does not
report finished; hence after an RST for a stored connection the Stream is
gone from the table. -/
theorem claim_C8 :
    (∀ (st : Stream) (s : Segment),
        (st.client_flow_.packet_belongs s = true ∨
          st.server_flow_.packet_belongs s = true) →
        s.flags.rst = true →
        (Stream.process_packet st s).1.state_ = StreamState.CLOSED) ∧
    (∀ (sf : StreamFollower) (s : Segment) (st : Stream), s.tcp = true →
        lookupId sf.streams_ (make_stream_id s.src_addr s.sport s.dst_addr s.dport) =
          some st →
        lookupId (StreamFollower.process_packet sf s).1.streams_
            (make_stream_id s.src_addr s.sport s.dst_addr s.dport) =
          (if (st.process_packet s).1.is_finished = true then none
           else some (st.process_packet s).1)) ∧
    (∀ (sf : StreamFollower) (s : Segment) (st : Stream), s.tcp = true →
        lookupId sf.streams_ (make_stream_id s.src_addr s.sport s.dst_addr s.dport) =
          some st →
        (st.client_flow_.packet_belongs s = true ∨
          st.server_flow_.packet_belongs s = true) →
        s.flags.rst = true →
        lookupId (StreamFollower.process_packet sf s).1.streams_
            (make_stream_id s.src_addr s.sport s.dst_addr s.dport) = none) := by
  refine ⟨stream_process_rst, follower_step_some, ?_⟩
  intro sf s st htcp hl hb hr
  rw [follower_step_some sf s st htcp hl]
  have hclosed := stream_process_rst st s hb hr
  have hfin : (st.process_packet s).1.is_finished = true := by
    simp [Stream.is_finished, hclosed]
  rw [if_pos hfin]

theorem claim_C8_witness :
    (Stream.process_packet demoStream rstSeg).1.state_ = StreamState.CLOSED ∧
    lookupId (StreamFollower.process_packet demoFollower rstSeg).1.streams_
      (make_stream_id rstSeg.src_addr rstSeg.sport rstSeg.dst_addr rstSeg.dport) = none :=
  ⟨claim_C8.1 demoStream rstSeg (by decide) (by decide),
   claim_C8.2.2 demoFollower rstSeg demoStream (by decide) (by decide) (by decide)
     (by decide)⟩

/-- C9: no packet processing path signals a hard failure: every processing
function is total, a non-TCP packet is ignored by the follower (which reports
it unhandled), a segment whose direction matches neither Flow of a Stream is
ignored, and a fully retransmitted segment leaves the reassembly state
untouched with no callback. -/
theorem claim_C9 :
    (∀ (sf : StreamFollower) (s : Segment), s.tcp = false →
        StreamFollower.process_packet sf s = (sf, false, [])) ∧
    (∀ (st : Stream) (s : Segment),
        st.client_flow_.packet_belongs s = false →
        st.server_flow_.packet_belongs s = false →
        Stream.process_packet st s = (st, [])) ∧
    (∀ (f : Flow) (s : Segment), s.seq + s.payload.length ≤ f.seq_number_ →
        (Flow.process_packet f s).1.payload_ = f.payload_ ∧
        (Flow.process_packet f s).1.buffered_payload_ = f.buffered_payload_ ∧
        (Flow.process_packet f s).1.seq_number_ = f.seq_number_ ∧
        (Flow.process_packet f s).2 = []) :=
  ⟨follower_non_tcp, stream_ignore, process_old⟩

theorem claim_C9_witness :
    StreamFollower.process_packet StreamFollower.init nonTcpSeg =
      (StreamFollower.init, false, []) ∧
    Stream.process_packet demoStream straySeg = (demoStream, []) ∧
    (Flow.process_packet (Flow.init [10] 80 100 false)
        (dataSegment 50 [1, 2])).1.payload_ =
      (Flow.init [10] 80 100 false).payload_ :=
  ⟨claim_C9.1 StreamFollower.init nonTcpSeg rfl,
   claim_C9.2.1 demoStream straySeg (by decide) (by decide),
   (claim_C9.2.2 (Flow.init [10] 80 100 false) (dataSegment 50 [1, 2]) (by decide)).1⟩

/-- C10 (counterexample): the claim says the Flow's reassembly and connection
state are mutated only by process_packet, but the public setter
`void Flow::state(State)` (tcp_ip.h line 93) is another public operation and
it changes the connection state of a concrete Flow. -/
theorem claim_C10_counterexample :
    (Flow.state flowC10 FlowState.RST_SENT).state_ ≠ flowC10.state_ := by
  decide

/-- C10 (amended): among the Flow's public operations, the reassembly state is
mutated only by process_packet: the public state setter changes only the
connection state, leaving the next-expected sequence number, the accumulator,
the out-of-order buffer and the identity untouched (const accessors cannot
mutate at all, by their const qualification in tcp_ip.h). -/
theorem claim_C10 (f : Flow) (ns : FlowState) :
    (Flow.state f ns).payload_ = f.payload_ ∧
    (Flow.state f ns).buffered_payload_ = f.buffered_payload_ ∧
    (Flow.state f ns).seq_number_ = f.seq_number_ ∧
    (Flow.state f ns).dest_address_ = f.dest_address_ ∧
    (Flow.state f ns).dest_port_ = f.dest_port_ ∧
    (Flow.state f ns).is_v6_ = f.is_v6_ ∧
    (Flow.state f ns).state_ = ns :=
  ⟨rfl, rfl, rfl, rfl, rfl, rfl, rfl⟩

end TCPIP
